import Mathlib

/-!
Shallow embedding of the per-user knowledge-graph store implemented in
`api/models/kGraph.js` (the merged kGraph model).  The document store holds one
GraphDocument per user with `nodes` and `edges` subdocument arrays; mutations
load the document, transform it in memory, and persist it.  Calls to the
external embedding/clustering peer are modelled by an explicit outcome
parameter of type `Except String Unit` (the code wraps each call in its own
try/catch that only logs), and JavaScript exceptions are modelled by `Except`.
Numeric layout coordinates are modelled by `ℚ`.
-/

namespace KGraph

/-- A node subdocument, following `kgraphSchema` as used by `kGraph.js`:
`content` (default empty string), `label` (array of strings), coordinates
`x`/`y` (default 0), optional provenance references, and an `updatedAt`
timestamp refreshed by edge operations. -/
structure Node where
  id : String
  content : String
  label : List String
  x : ℚ
  y : ℚ
  source_message_id : Option String
  source_conversation_id : Option String
  updatedAt : Nat
deriving DecidableEq, Repr

/-- An edge subdocument: `source`/`target` node ids and a `label` array. -/
structure Edge where
  id : String
  source : String
  target : String
  label : List String
deriving DecidableEq, Repr

/-- The per-user GraphDocument: `{ userId, nodes, edges }` (the `userId` key
is left implicit, every operation below is already scoped to one user's
document through `getOrCreateGraphDoc`). -/
structure GraphDoc where
  nodes : List Node
  edges : List Edge
deriving DecidableEq, Repr

/-- A JavaScript `label` argument: an array, a string, or absent
(`undefined`/`null`). -/
inductive JsLabel where
  | arr (ls : List String)
  | str (s : String)
  | undef
deriving DecidableEq, Repr

/-- Label normalization used by `createNode` and `createEdge`:
`Array.isArray(label) ? label : (label ? [label] : [])`.  Note the JavaScript
truthiness test: the empty string is falsy, so a bare `""` normalizes to `[]`. -/
def normLabelTruthy : JsLabel → List String
  | .arr ls => ls
  | .str s => if s = "" then [] else [s]
  | .undef => []

/-- Label normalization used by `updateEdge` (kGraph.js lines 606-612):
an array replaces wholesale, `typeof label === 'string'` wraps (even `""`),
anything else clears to `[]`. -/
def normLabelReplace : JsLabel → List String
  | .arr ls => ls
  | .str s => [s]
  | .undef => []

/-- In-place mutation of the first element satisfying `p`, as performed on a
mongoose subdocument found by `find` / `.id()`. -/
def updateFirst {α : Type} (p : α → Bool) (f : α → α) : List α → List α
  | [] => []
  | x :: xs => if p x then f x :: xs else x :: updateFirst p f xs

/-- The label-merging loop of `createEdge` (kGraph.js lines 506-510):
`for (const l of labelArr) if (!edge.label.includes(l)) edge.label.push(l)`.
The membership test is against the live, already-extended array. -/
def mergeLabels (old ls : List String) : List String :=
  ls.foldl (fun acc l => if l ∈ acc then acc else acc ++ [l]) old

/-- Keep the first occurrence of every element, in first-seen order. -/
def dedupFirst (ls : List String) : List String :=
  mergeLabels [] ls

/-- The `(source, target)` pair test used by `createEdge` / `updateEdge` /
`deleteEdge`: `e.source === source && e.target === target`. -/
def edgeMatches (source target : String) (e : Edge) : Bool :=
  e.source == source && e.target == target

/-- `updatedAt` refresh on the two endpoint nodes (`graph.nodes.id(source)` /
`graph.nodes.id(target)`, each set to `now` when found). -/
def touchNodes (source target : String) (now : Nat) (ns : List Node) : List Node :=
  updateFirst (fun n => n.id == target) (fun n => { n with updatedAt := now })
    (updateFirst (fun n => n.id == source) (fun n => { n with updatedAt := now }) ns)

/-- Input of `createEdge` / `updateEdge`: `{ source, target, label }`. -/
structure EdgeInput where
  source : String
  target : String
  label : JsLabel
deriving DecidableEq, Repr

/-- `createEdge(userId, {source, target, label})` (kGraph.js lines 488-586).
Finds an existing edge by exact ordered `(source, target)` match; if found,
merges the normalized labels into it (skipping duplicates); otherwise appends
a fresh edge (its store-assigned id passed as `newId`).  Refreshes
`updatedAt` on the endpoint nodes that exist, persists, then issues the
edge-embedding peer call whose failure is caught and only logged.
Returns the committed document, the created/updated edge and the
`isNewEdge` flag. -/
def createEdgeRun (g : GraphDoc) (inp : EdgeInput) (newId : String) (now : Nat)
    (peer : Except String Unit) : GraphDoc × Edge × Bool :=
  let labelArr := normLabelTruthy inp.label
  match g.edges.find? (edgeMatches inp.source inp.target) with
  | some e0 =>
    let updated : Edge := { e0 with label := mergeLabels e0.label labelArr }
    let g' : GraphDoc :=
      { nodes := touchNodes inp.source inp.target now g.nodes
        edges := updateFirst (edgeMatches inp.source inp.target)
          (fun e => { e with label := mergeLabels e.label labelArr }) g.edges }
    match peer with
    | .ok _ => (g', updated, false)
    | .error _ => (g', updated, false)
  | none =>
    let newEdge : Edge := { id := newId, source := inp.source, target := inp.target, label := labelArr }
    let g' : GraphDoc :=
      { nodes := touchNodes inp.source inp.target now g.nodes
        edges := g.edges ++ [newEdge] }
    match peer with
    | .ok _ => (g', newEdge, true)
    | .error _ => (g', newEdge, true)

/-- Input of `createNode`: `{ label, x, y, content, source_message_id,
source_conversation_id }`, each possibly absent. -/
structure NodeInput where
  label : JsLabel
  x : Option ℚ
  y : Option ℚ
  content : Option String
  source_message_id : Option String
  source_conversation_id : Option String
deriving DecidableEq, Repr

/-- `createNode(userId, nodeData)` (kGraph.js lines 110-193).  Builds the new
node with JavaScript defaulting (`content || ''`, `x || 0`, `y || 0`,
normalized label array), appends it, persists, then issues the node-embedding
peer call whose failure is caught and only logged. -/
def createNodeRun (g : GraphDoc) (inp : NodeInput) (newId : String) (now : Nat)
    (peer : Except String Unit) : GraphDoc × Node :=
  let newNode : Node :=
    { id := newId
      content := inp.content.getD ""
      label := normLabelTruthy inp.label
      x := inp.x.getD 0
      y := inp.y.getD 0
      source_message_id := inp.source_message_id
      source_conversation_id := inp.source_conversation_id
      updatedAt := now }
  let g' : GraphDoc := { g with nodes := g.nodes ++ [newNode] }
  match peer with
  | .ok _ => (g', newNode)
  | .error _ => (g', newNode)

/-- A provided (non-`undefined`) label value in an update payload. -/
inductive LabelVal where
  | arr (ls : List String)
  | str (s : String)
deriving DecidableEq, Repr

/-- `Array.isArray(v) ? v : [v]`. -/
def LabelVal.toList : LabelVal → List String
  | .arr ls => ls
  | .str s => [s]

/-- The update payload of `updateNode`; `none` models a field left
`undefined` (only supplied fields are applied).  The provenance fields can be
explicitly set to `null`, hence the nested `Option`. -/
structure NodeUpdate where
  labels : Option LabelVal
  label : Option LabelVal
  x : Option ℚ
  y : Option ℚ
  content : Option String
  source_message_id : Option (Option String)
  source_conversation_id : Option (Option String)
deriving DecidableEq, Repr

/-- The field-by-field mutation of `updateNode` (kGraph.js lines 219-245):
`labels` takes precedence over its `label` alias; every other field is
applied only when supplied. -/
def applyNodeUpdate (u : NodeUpdate) (n : Node) : Node :=
  let n1 := match u.labels with
    | some v => { n with label := v.toList }
    | none => match u.label with
      | some v => { n with label := v.toList }
      | none => n
  let n2 := match u.x with | some q => { n1 with x := q } | none => n1
  let n3 := match u.y with | some q => { n2 with y := q } | none => n2
  let n4 := match u.content with | some c => { n3 with content := c } | none => n3
  let n5 := match u.source_message_id with
    | some m => { n4 with source_message_id := m } | none => n4
  match u.source_conversation_id with
  | some cv => { n5 with source_conversation_id := cv } | none => n5

/-- `updateNode(userId, nodeId, updateData)` (kGraph.js lines 203-286).
`graph.nodes.id(nodeId)` resolves the subdocument; when it does not resolve
the handler only logs a warning and then dereferences `null`, so the call
throws and the outer catch rethrows a failure to the caller — modelled as
`Except.error`.  Otherwise the supplied fields are applied, the document is
persisted, and (when `content` changed) a node-embedding peer call is issued
whose failure is caught and only logged. -/
def updateNodeRun (g : GraphDoc) (nodeId : String) (u : NodeUpdate)
    (peer : Except String Unit) : Except String (GraphDoc × Node) :=
  match g.nodes.find? (fun n => n.id == nodeId) with
  | none => .error "TypeError: node is null"
  | some n0 =>
    let g' : GraphDoc :=
      { g with nodes := updateFirst (fun n => n.id == nodeId) (applyNodeUpdate u) g.nodes }
    match peer with
    | .ok _ => .ok (g', applyNodeUpdate u n0)
    | .error _ => .ok (g', applyNodeUpdate u n0)

/-- `deleteNodes(userId, {nodeIds})` (kGraph.js lines 409-478).  One `$pull`
removes every node whose `_id` is in the requested list, a second `$pull`
removes every edge whose `source` or `target` is in the requested list
(string form; the ObjectId round-trip is the identity on canonical ids), a
vector-delete peer call follows whose failure is caught and only logged, and
the returned count is the number of requested ids. -/
def deleteNodesRun (g : GraphDoc) (nodeIds : List String)
    (peer : Except String Unit) : GraphDoc × Nat :=
  let g2 : GraphDoc :=
    { nodes := g.nodes.filter (fun n => !(decide (n.id ∈ nodeIds)))
      edges := g.edges.filter
        (fun e => !(decide (e.source ∈ nodeIds)) && !(decide (e.target ∈ nodeIds))) }
  match peer with
  | .ok _ => (g2, nodeIds.length)
  | .error _ => (g2, nodeIds.length)

/-- `updateEdge(userId, {source, target, label})` (kGraph.js lines 596-674).
Requires an existing edge for the ordered pair (otherwise the handler logs
and then dereferences `undefined`, so the call fails — modelled as
`Except.error`); **replaces** the label array via `normLabelReplace`,
refreshes endpoint `updatedAt`, persists, then issues the edge-embedding
peer call whose failure is caught and only logged. -/
def updateEdgeRun (g : GraphDoc) (inp : EdgeInput) (now : Nat)
    (peer : Except String Unit) : Except String (GraphDoc × Edge) :=
  match g.edges.find? (edgeMatches inp.source inp.target) with
  | none => .error "TypeError: edge is undefined"
  | some e0 =>
    let g' : GraphDoc :=
      { nodes := touchNodes inp.source inp.target now g.nodes
        edges := updateFirst (edgeMatches inp.source inp.target)
          (fun e => { e with label := normLabelReplace inp.label }) g.edges }
    match peer with
    | .ok _ => .ok (g', { e0 with label := normLabelReplace inp.label })
    | .error _ => .ok (g', { e0 with label := normLabelReplace inp.label })

/-- `deleteEdge(userId, {source, target})` (kGraph.js lines 684-739).
Requires an existing edge for the ordered pair (otherwise
`edge._id.toString()` throws — modelled as `Except.error`); refreshes
endpoint `updatedAt`, pulls the edge by its `_id`, persists, then issues a
vector-delete peer call whose failure is caught and only logged; returns
`{deletedCount: 1}`. -/
def deleteEdgeRun (g : GraphDoc) (source target : String) (now : Nat)
    (peer : Except String Unit) : Except String (GraphDoc × Nat) :=
  match g.edges.find? (edgeMatches source target) with
  | none => .error "TypeError: edge is undefined"
  | some e0 =>
    let g' : GraphDoc :=
      { nodes := touchNodes source target now g.nodes
        edges := g.edges.filter (fun e => e.id != e0.id) }
    match peer with
    | .ok _ => .ok (g', 1)
    | .error _ => .ok (g', 1)

/-- `clearGraph(userId)` (kGraph.js lines 745-776).  Deletes the user's
document from the store, then issues the embed-reset peer call in its own
try/catch: a reset failure is only logged and the already-performed document
deletion is not reverted; `{success: true}` is returned either way. -/
def clearGraphRun (_store : Option GraphDoc) (peer : Except String Unit) :
    Option GraphDoc × Bool :=
  match peer with
  | .ok _ => (none, true)
  | .error _ => (none, true)

/-- A scratch node attached to a conversation message (the import source).
The empty string models an absent `content`/`label` (both are falsy in the
JavaScript truthiness tests used by `importNodes`). -/
structure MsgNode where
  id : String
  content : String
  label : String
  x : Option ℚ
  y : Option ℚ
  isCurated : Bool
deriving DecidableEq, Repr

/-- A message document carrying scratch nodes. -/
structure MsgDoc where
  messageId : String
  conversationId : String
  nodes : List MsgNode
deriving DecidableEq, Repr

/-- The graph node built from a scratch node by `importNodes` (kGraph.js
lines 326-333): `content: node.content || node.label || '새 노드'`,
`label: node.label ? [node.label] : []`, coordinates defaulted, provenance
from the owning message.  The store-assigned id is patched in afterwards. -/
def draftOf (m : MsgDoc) (mn : MsgNode) : Node :=
  { id := ""
    content := if mn.content ≠ "" then mn.content
      else if mn.label ≠ "" then mn.label else "새 노드"
    label := if mn.label ≠ "" then [mn.label] else []
    x := mn.x.getD 0
    y := mn.y.getD 0
    source_message_id := some m.messageId
    source_conversation_id := some m.conversationId
    updatedAt := 0 }

/-- `importNodes(userId, {nodeIds})` (kGraph.js lines 295-400).  Finds the
messages holding the requested scratch nodes, builds graph nodes from the
matching candidates, marks those candidates `isCurated`, appends the new
nodes to the graph in one batch, persists messages and graph, then issues a
batch node-embedding peer call whose failure is caught and only logged.
`idSupply` models the store-assigned ids of the appended nodes. -/
def importNodesRun (msgs : List MsgDoc) (g : GraphDoc) (nodeIds : List String)
    (idSupply : Nat → String) (peer : Except String Unit) :
    List MsgDoc × GraphDoc × List Node :=
  let found := msgs.filter (fun m => m.nodes.any (fun n => decide (n.id ∈ nodeIds)))
  let drafts := (found.map (fun m =>
    (m.nodes.filter (fun n => decide (n.id ∈ nodeIds))).map (draftOf m))).flatten
  let newNodes := drafts.mapIdx (fun i d => { d with id := idSupply i })
  let msgs' := msgs.map (fun m =>
    { m with nodes := m.nodes.map (fun n =>
        if decide (n.id ∈ nodeIds) then { n with isCurated := true } else n) })
  let g' : GraphDoc := { g with nodes := g.nodes ++ newNodes }
  match peer with
  | .ok _ => (msgs', g', newNodes)
  | .error _ => (msgs', g', newNodes)

/-- `getGraph(userId, conversationId)` (kGraph.js lines 78-101).  With a
truthy `conversationId` the nodes are filtered to those whose
`source_conversation_id` strictly equals it, and the edges to those whose
`source` and `target` are both in the id set of the filtered nodes; with a
falsy `conversationId` (omitted, `null`, or the empty string) the full graph
is returned. -/
def getGraphRun (g : GraphDoc) : Option String → List Node × List Edge
  | some c =>
    if c = "" then (g.nodes, g.edges)
    else
      let filteredNodes := g.nodes.filter
        (fun n => n.source_conversation_id == some c)
      let ids := filteredNodes.map (fun n => n.id)
      (filteredNodes,
        g.edges.filter
          (fun e => decide (e.source ∈ ids) && decide (e.target ∈ ids)))
  | none => (g.nodes, g.edges)

/-- The strategy registry `recommendationStrategies` (an object mapping a
method name to a strategy), modelled as an association list.  A strategy call
`await strategy(userId, params)` either returns a list of candidate node ids
or throws; its outcome is modelled by the stored `Except`. -/
def lookupStrategy (registry : List (String × Except String (List String)))
    (method : String) : Option (Except String (List String)) :=
  (registry.find? (fun p => p.fst == method)).map Prod.snd

/-- The error message thrown for an unknown method (kGraph.js line 809):
it lists the valid method names. -/
def invalidMethodMsg (method : String) (valid : List String) : String :=
  "Invalid method: " ++ method ++ ". Valid methods are: " ++
    String.intercalate ", " valid

/-- The body of `getRecommendations` (kGraph.js lines 801-829, inside the
try): unknown method throws the message listing `Object.keys` of the
registry; a strategy failure propagates; a strategy result is filtered to
the ids present in the user's current document. -/
def getRecommendationsBody (registry : List (String × Except String (List String)))
    (method : String) (g : GraphDoc) : Except String (List String) :=
  match lookupStrategy registry method with
  | none => .error (invalidMethodMsg method (registry.map Prod.fst))
  | some strat =>
    match strat with
    | .error msg => .error msg
    | .ok recs =>
      let ids := g.nodes.map (fun n => n.id)
      .ok (recs.filter (fun id => decide (id ∈ ids)))

/-- `getRecommendations(userId, method, params)` (kGraph.js lines 800-839):
the whole body runs inside a try/catch whose catch logs the error and
returns the empty array, so no failure is thrown to the caller. -/
def getRecommendationsRun (registry : List (String × Except String (List String)))
    (method : String) (g : GraphDoc) : List String :=
  match getRecommendationsBody registry method g with
  | .ok r => r
  | .error _ => []

/-- One entry of the `calculate-umap` peer response: `{id, x, y}` in
normalized coordinate space. -/
structure UmapItem where
  id : String
  x : ℚ
  y : ℚ
deriving DecidableEq, Repr

/-- One iteration of the update loop of `calculateCluster` (kGraph.js lines
871-879): look the node up by id; when found overwrite `x`/`y` with the
returned coordinates times 250; when absent only log a warning and keep
going. -/
def applyUmapItem (ns : List Node) (item : UmapItem) : List Node :=
  updateFirst (fun n => n.id == item.id)
    (fun n => { n with x := item.x * 250, y := item.y * 250 }) ns

/-- `calculateCluster(userId)` (kGraph.js lines 848-892) after a successful
peer response `umapData`: applies every returned coordinate to the document
(scaling by 250), persists once, and returns the raw peer response. -/
def calculateClusterRun (g : GraphDoc) (umapData : List UmapItem) :
    GraphDoc × List UmapItem :=
  ({ g with nodes := umapData.foldl applyUmapItem g.nodes }, umapData)

/-- An HTTP call to the embedding/clustering peer: target path and the
client-side `timeout` option passed to the transport (`none` when the
request config carries no timeout). -/
structure PeerCall where
  path : String
  timeout : Option Nat
deriving DecidableEq, Repr

/-- The embed call of `createNode` (kGraph.js lines 158-165). -/
def createNodeEmbedCall : PeerCall := { path := "/embed/node", timeout := some 15000 }

/-- The embed call of `updateNode` (kGraph.js lines 259-266). -/
def updateNodeEmbedCall : PeerCall := { path := "/embed/node", timeout := some 15000 }

/-- The embed call of `importNodes` (kGraph.js lines 374-381). -/
def importNodesEmbedCall : PeerCall := { path := "/embed/node", timeout := some 15000 }

/-- The vector-delete call of `deleteNodes` (kGraph.js lines 451-459). -/
def deleteNodesEmbedCall : PeerCall := { path := "/embed/delete", timeout := some 15000 }

/-- The embed call of `createEdge` (kGraph.js lines 557-565). -/
def createEdgeEmbedCall : PeerCall := { path := "/embed/edge", timeout := some 15000 }

/-- The embed call of `updateEdge` (kGraph.js lines 647-655). -/
def updateEdgeEmbedCall : PeerCall := { path := "/embed/edge", timeout := some 15000 }

/-- The vector-delete call of `deleteEdge` (kGraph.js lines 712-720). -/
def deleteEdgeEmbedCall : PeerCall := { path := "/embed/delete", timeout := some 15000 }

/-- The embed-reset call of `clearGraph` (kGraph.js lines 753-761). -/
def clearGraphResetCall : PeerCall := { path := "/embed/reset", timeout := some 15000 }

/-- The layout request of `calculateCluster` (kGraph.js lines 857-861): its
axios config only sets headers — it carries **no** timeout option. -/
def calculateClusterUmapCall : PeerCall := { path := "/calculate-umap", timeout := none }

/-- Every call the model issues to the embedding/clustering peer. -/
def allPeerCalls : List PeerCall :=
  [createNodeEmbedCall, updateNodeEmbedCall, importNodesEmbedCall,
   deleteNodesEmbedCall, createEdgeEmbedCall, updateEdgeEmbedCall,
   deleteEdgeEmbedCall, clearGraphResetCall, calculateClusterUmapCall]

/-- The embed-service calls (everything except the layout request). -/
def allEmbedCalls : List PeerCall :=
  [createNodeEmbedCall, updateNodeEmbedCall, importNodesEmbedCall,
   deleteNodesEmbedCall, createEdgeEmbedCall, updateEdgeEmbedCall,
   deleteEdgeEmbedCall, clearGraphResetCall]

/-- Sample node used by concrete witnesses. -/
def nodeA : Node :=
  { id := "a", content := "idea1", label := [], x := 0, y := 0,
    source_message_id := none, source_conversation_id := some "conv1", updatedAt := 0 }

/-- Sample node used by concrete witnesses. -/
def nodeB : Node :=
  { id := "b", content := "idea2", label := [], x := 0, y := 0,
    source_message_id := none, source_conversation_id := some "conv2", updatedAt := 0 }

/-- Sample edge used by concrete witnesses. -/
def edgeAB : Edge := { id := "e1", source := "a", target := "b", label := ["r1"] }

/-! ### Helper lemmas about `updateFirst` and `mergeLabels` -/

theorem updateFirst_length {α : Type} (p : α → Bool) (f : α → α) (l : List α) :
    (updateFirst p f l).length = l.length := by
  induction l with
  | nil => rfl
  | cons x xs ih => by_cases hx : p x = true <;> simp [updateFirst, hx, ih]

theorem find?_decomp {α : Type} (p : α → Bool) (l : List α) (a : α)
    (h : l.find? p = some a) :
    ∃ pre post, l = pre ++ a :: post ∧ (∀ b ∈ pre, p b = false) ∧ p a = true := by
  induction l with
  | nil => simp at h
  | cons x xs ih =>
    cases hpx : p x with
    | true =>
      rw [List.find?_cons_of_pos _ hpx] at h
      obtain rfl : x = a := by injection h
      exact ⟨[], xs, rfl, by simp, hpx⟩
    | false =>
      rw [List.find?_cons_of_neg _ (by simp [hpx])] at h
      obtain ⟨pre, post, hdec, hpre, hp⟩ := ih h
      refine ⟨x :: pre, post, by rw [hdec]; rfl, ?_, hp⟩
      intro b hb
      rcases List.mem_cons.mp hb with rfl | hb
      · exact hpx
      · exact hpre b hb

theorem updateFirst_append {α : Type} (p : α → Bool) (f : α → α)
    (pre : List α) (a : α) (post : List α)
    (hpre : ∀ b ∈ pre, p b = false) (ha : p a = true) :
    updateFirst p f (pre ++ a :: post) = pre ++ f a :: post := by
  induction pre with
  | nil => simp [updateFirst, ha]
  | cons x xs ih =>
    have hx : p x = false := hpre x (by simp)
    simp [updateFirst, hx, ih (fun b hb => hpre b (by simp [hb]))]

theorem mergeLabels_nil (old : List String) : mergeLabels old [] = old := rfl

theorem mergeLabels_cons (old : List String) (l : String) (ls : List String) :
    mergeLabels old (l :: ls) =
      mergeLabels (if l ∈ old then old else old ++ [l]) ls := rfl

theorem mergeLabels_nodup (ls : List String) :
    ∀ old : List String, old.Nodup → (mergeLabels old ls).Nodup := by
  induction ls with
  | nil => intro old h; simpa [mergeLabels_nil] using h
  | cons l ls ih =>
    intro old h
    rw [mergeLabels_cons]
    by_cases hl : l ∈ old
    · simpa [hl] using ih old h
    · rw [if_neg hl]
      refine ih _ ?_
      rw [List.nodup_append_comm]
      simpa [List.nodup_cons] using ⟨hl, h⟩

theorem mergeLabels_prefix_ext (ls : List String) :
    ∀ old : List String, ∃ t, mergeLabels old ls = old ++ t := by
  induction ls with
  | nil => intro old; exact ⟨[], by simp [mergeLabels_nil]⟩
  | cons l ls ih =>
    intro old
    rw [mergeLabels_cons]
    by_cases hl : l ∈ old
    · simpa [hl] using ih old
    · rw [if_neg hl]
      obtain ⟨t, ht⟩ := ih (old ++ [l])
      exact ⟨[l] ++ t, by rw [ht, List.append_assoc]⟩

theorem mem_mergeLabels (ls : List String) :
    ∀ (old : List String) (a : String),
      a ∈ mergeLabels old ls ↔ a ∈ old ∨ a ∈ ls := by
  induction ls with
  | nil => intro old a; simp [mergeLabels_nil]
  | cons l ls ih =>
    intro old a
    rw [mergeLabels_cons]
    by_cases hl : l ∈ old
    · rw [if_pos hl, ih]
      constructor
      · rintro (h | h)
        · exact Or.inl h
        · exact Or.inr (List.mem_cons_of_mem _ h)
      · rintro (h | h)
        · exact Or.inl h
        · rcases List.mem_cons.mp h with rfl | h
          · exact Or.inl hl
          · exact Or.inr h
    · rw [if_neg hl, ih]
      simp [List.mem_append, or_assoc]

theorem mergeLabels_of_nodup_append (ls : List String) :
    ∀ acc : List String, (acc ++ ls).Nodup → mergeLabels acc ls = acc ++ ls := by
  induction ls with
  | nil => intro acc _; simp [mergeLabels_nil]
  | cons l ls ih =>
    intro acc h
    have hl : l ∉ acc := by
      rcases List.nodup_append.mp h with ⟨_, _, hdisj⟩
      intro hmem
      exact hdisj hmem (by simp)
    rw [mergeLabels_cons, if_neg hl]
    have hre : acc ++ l :: ls = (acc ++ [l]) ++ ls := by simp
    rw [hre] at h
    rw [ih (acc ++ [l]) h, hre]

theorem mergeLabels_eq_dedupFirst (old ls : List String) (h : old.Nodup) :
    mergeLabels old ls = dedupFirst (old ++ ls) := by
  have h0 : mergeLabels [] old = old := by
    simpa using mergeLabels_of_nodup_append old [] (by simpa using h)
  have h1 : dedupFirst (old ++ ls) = mergeLabels (mergeLabels [] old) ls := by
    simp only [dedupFirst, mergeLabels, List.foldl_append]
  rw [h1, h0]

/-! ### C1 -/

/-- C1: for a `(source, target)` pair that already has an edge, `createEdge`
never adds a second edge (edge count unchanged, the existing edge is updated
in place); the new labels are merged into the existing label sequence skipping
labels already present, so the merged sequence has no duplicates (given the
existing one had none), extends the existing sequence (first-seen order is
preserved: it equals the first-occurrence dedup of old ++ new), and contains
exactly the union of the old and the new labels. -/
theorem createEdge_merges_existing_pair
    (g : GraphDoc) (inp : EdgeInput) (newId : String) (now : Nat)
    (peer : Except String Unit) (e0 : Edge)
    (hfind : g.edges.find? (edgeMatches inp.source inp.target) = some e0)
    (hnd : e0.label.Nodup) :
    (createEdgeRun g inp newId now peer).1.edges.length = g.edges.length ∧
    (createEdgeRun g inp newId now peer).2.2 = false ∧
    (createEdgeRun g inp newId now peer).2.1 =
      { e0 with label := mergeLabels e0.label (normLabelTruthy inp.label) } ∧
    (∃ pre post, g.edges = pre ++ e0 :: post ∧
      (createEdgeRun g inp newId now peer).1.edges =
        pre ++ { e0 with label := mergeLabels e0.label (normLabelTruthy inp.label) } :: post) ∧
    (mergeLabels e0.label (normLabelTruthy inp.label)).Nodup ∧
    (∃ t, mergeLabels e0.label (normLabelTruthy inp.label) = e0.label ++ t) ∧
    mergeLabels e0.label (normLabelTruthy inp.label) =
      dedupFirst (e0.label ++ normLabelTruthy inp.label) ∧
    (∀ l, l ∈ mergeLabels e0.label (normLabelTruthy inp.label) ↔
      l ∈ e0.label ∨ l ∈ normLabelTruthy inp.label) := by
  obtain ⟨pre, post, hdec, hpre, hp⟩ := find?_decomp _ _ _ hfind
  have hrun : createEdgeRun g inp newId now peer =
      ({ nodes := touchNodes inp.source inp.target now g.nodes
         edges := updateFirst (edgeMatches inp.source inp.target)
           (fun e => { e with label := mergeLabels e.label (normLabelTruthy inp.label) })
           g.edges },
       { e0 with label := mergeLabels e0.label (normLabelTruthy inp.label) }, false) := by
    cases peer <;> simp [createEdgeRun, hfind]
  have hedges : (createEdgeRun g inp newId now peer).1.edges =
      pre ++ { e0 with label := mergeLabels e0.label (normLabelTruthy inp.label) } :: post := by
    rw [hrun]
    show updateFirst _ _ g.edges = _
    rw [hdec, updateFirst_append _ _ pre e0 post hpre hp]
  refine ⟨?_, ?_, ?_, ⟨pre, post, hdec, hedges⟩, ?_, ?_, ?_, ?_⟩
  · rw [hedges, hdec]; simp
  · rw [hrun]
  · rw [hrun]
  · exact mergeLabels_nodup _ _ hnd
  · exact mergeLabels_prefix_ext _ _
  · exact mergeLabels_eq_dedupFirst _ _ hnd
  · intro l; exact mem_mergeLabels _ _ _

/-- Concrete witness for C1: the document has the single edge
`a → b` labelled `["r1"]`; re-creating `a → b` with label `["r2", "r1"]`
keeps a single edge and merges the labels to `["r1", "r2"]`. -/
theorem createEdge_merges_existing_pair_witness :
    ((GraphDoc.mk [] [Edge.mk "e1" "a" "b" ["r1"]]).edges.find?
        (edgeMatches "a" "b") = some (Edge.mk "e1" "a" "b" ["r1"])) ∧
    (Edge.mk "e1" "a" "b" ["r1"]).label.Nodup ∧
    ((createEdgeRun (GraphDoc.mk [] [Edge.mk "e1" "a" "b" ["r1"]])
        (EdgeInput.mk "a" "b" (JsLabel.arr ["r2", "r1"])) "e2" 7 (Except.ok ())).1.edges.length =
      (GraphDoc.mk [] [Edge.mk "e1" "a" "b" ["r1"]]).edges.length) ∧
    mergeLabels ["r1"] (normLabelTruthy (JsLabel.arr ["r2", "r1"])) = ["r1", "r2"] :=
  ⟨by decide, by decide,
    (createEdge_merges_existing_pair
      (GraphDoc.mk [] [Edge.mk "e1" "a" "b" ["r1"]])
      (EdgeInput.mk "a" "b" (JsLabel.arr ["r2", "r1"])) "e2" 7 (Except.ok ())
      (Edge.mk "e1" "a" "b" ["r1"]) (by decide) (by decide)).1, by decide⟩

/-! ### C2 -/

/-- C2: `deleteNodes` removes exactly the nodes whose id is among the
requested ids and exactly the edges whose source or target is among them
(every incident edge goes, nothing else is touched — the survivors form
sublists of the originals, unchanged), and it returns the count of ids
requested, with no requirement that the requested ids exist. -/
theorem deleteNodes_cascades (g : GraphDoc) (nodeIds : List String)
    (peer : Except String Unit) :
    (deleteNodesRun g nodeIds peer).1.nodes.Sublist g.nodes ∧
    (deleteNodesRun g nodeIds peer).1.edges.Sublist g.edges ∧
    (∀ n, n ∈ (deleteNodesRun g nodeIds peer).1.nodes ↔
      n ∈ g.nodes ∧ n.id ∉ nodeIds) ∧
    (∀ e, e ∈ (deleteNodesRun g nodeIds peer).1.edges ↔
      e ∈ g.edges ∧ e.source ∉ nodeIds ∧ e.target ∉ nodeIds) ∧
    (deleteNodesRun g nodeIds peer).2 = nodeIds.length := by
  have h1 : (deleteNodesRun g nodeIds peer).1.nodes =
      g.nodes.filter (fun n => !(decide (n.id ∈ nodeIds))) := by
    cases peer <;> rfl
  have h2 : (deleteNodesRun g nodeIds peer).1.edges =
      g.edges.filter
        (fun e => !(decide (e.source ∈ nodeIds)) && !(decide (e.target ∈ nodeIds))) := by
    cases peer <;> rfl
  have h3 : (deleteNodesRun g nodeIds peer).2 = nodeIds.length := by
    cases peer <;> rfl
  refine ⟨?_, ?_, ?_, ?_, h3⟩
  · rw [h1]; exact List.filter_sublist _
  · rw [h2]; exact List.filter_sublist _
  · intro n; rw [h1]; simp [List.mem_filter]
  · intro e; rw [h2]; simp [List.mem_filter, and_assoc]

/-- Concrete witness for C2: deleting `["a", "ghost"]` (where `"ghost"` does
not exist) from the graph with nodes `a`, `b` and edge `a → b` removes node
`a` and the incident edge, leaves node `b`, and reports a count of 2. -/
theorem deleteNodes_cascades_witness :
    ((deleteNodesRun (GraphDoc.mk [nodeA, nodeB] [edgeAB]) ["a", "ghost"]
        (Except.ok ())).2 = ["a", "ghost"].length) ∧
    (deleteNodesRun (GraphDoc.mk [nodeA, nodeB] [edgeAB]) ["a", "ghost"]
        (Except.ok ())).1 = GraphDoc.mk [nodeB] [] :=
  ⟨(deleteNodes_cascades (GraphDoc.mk [nodeA, nodeB] [edgeAB]) ["a", "ghost"]
      (Except.ok ())).2.2.2.2, by decide⟩

/-! ### C3 -/

/-- C3: for an existing edge `(source, target)`, `updateEdge` replaces the
stored label sequence wholesale: the updated edge's label sequence is exactly
the normalization of the argument — an array replaces the sequence, a single
string becomes a one-element sequence, an absent label clears it to empty —
so every previously stored label not in the new sequence is discarded. -/
theorem updateEdge_replaces_labels (g : GraphDoc) (inp : EdgeInput) (now : Nat)
    (peer : Except String Unit) (e0 : Edge)
    (hfind : g.edges.find? (edgeMatches inp.source inp.target) = some e0) :
    ∃ g', updateEdgeRun g inp now peer =
        .ok (g', { e0 with label := normLabelReplace inp.label }) ∧
      (∃ pre post, g.edges = pre ++ e0 :: post ∧
        g'.edges = pre ++ { e0 with label := normLabelReplace inp.label } :: post) ∧
      (∀ ls, inp.label = .arr ls → normLabelReplace inp.label = ls) ∧
      (∀ s, inp.label = .str s → normLabelReplace inp.label = [s]) ∧
      (inp.label = .undef → normLabelReplace inp.label = []) ∧
      (∀ l, l ∈ e0.label → l ∉ normLabelReplace inp.label →
        l ∉ ({ e0 with label := normLabelReplace inp.label } : Edge).label) := by
  obtain ⟨pre, post, hdec, hpre, hp⟩ := find?_decomp _ _ _ hfind
  refine ⟨{ nodes := touchNodes inp.source inp.target now g.nodes
            edges := updateFirst (edgeMatches inp.source inp.target)
              (fun e => { e with label := normLabelReplace inp.label }) g.edges },
    ?_, ⟨pre, post, hdec, ?_⟩, ?_, ?_, ?_, ?_⟩
  · cases peer <;> simp [updateEdgeRun, hfind]
  · show updateFirst _ _ g.edges = _
    rw [hdec, updateFirst_append _ _ pre e0 post hpre hp]
  · intro ls h; rw [h]; rfl
  · intro s h; rw [h]; rfl
  · intro h; rw [h]; rfl
  · intro l _ hnot; exact hnot

/-- Concrete witness for C3: replacing the label of the existing edge
`a → b` (labels `["r1"]`) with the array `["r2"]` discards `"r1"`. -/
theorem updateEdge_replaces_labels_witness :
    (GraphDoc.mk [] [edgeAB]).edges.find? (edgeMatches "a" "b") = some edgeAB ∧
    ∃ g', updateEdgeRun (GraphDoc.mk [] [edgeAB])
        (EdgeInput.mk "a" "b" (JsLabel.arr ["r2"])) 3 (Except.ok ()) =
        .ok (g', { edgeAB with label := normLabelReplace (JsLabel.arr ["r2"]) }) ∧
      (∃ pre post, (GraphDoc.mk [] [edgeAB]).edges = pre ++ edgeAB :: post ∧
        g'.edges = pre ++ { edgeAB with
          label := normLabelReplace (JsLabel.arr ["r2"]) } :: post) ∧
      (∀ ls, JsLabel.arr ["r2"] = JsLabel.arr ls →
        normLabelReplace (JsLabel.arr ["r2"]) = ls) ∧
      (∀ s, JsLabel.arr ["r2"] = JsLabel.str s →
        normLabelReplace (JsLabel.arr ["r2"]) = [s]) ∧
      (JsLabel.arr ["r2"] = JsLabel.undef →
        normLabelReplace (JsLabel.arr ["r2"]) = []) ∧
      (∀ l, l ∈ edgeAB.label → l ∉ normLabelReplace (JsLabel.arr ["r2"]) →
        l ∉ ({ edgeAB with
          label := normLabelReplace (JsLabel.arr ["r2"]) } : Edge).label) :=
  ⟨by decide,
    updateEdge_replaces_labels (GraphDoc.mk [] [edgeAB])
      (EdgeInput.mk "a" "b" (JsLabel.arr ["r2"])) 3 (Except.ok ()) edgeAB (by decide)⟩

/-! ### C4 -/

/-- C4: `updateNode` fails (the failure is surfaced to the caller as an
error) whenever `nodeId` does not resolve in the user's document, and
`updateEdge` and `deleteEdge` fail whenever no edge exists for the ordered
`(source, target)` pair. -/
theorem notFound_fails (g : GraphDoc) (nodeId : String) (u : NodeUpdate)
    (inp : EdgeInput) (source target : String) (now : Nat)
    (peer : Except String Unit) :
    (g.nodes.find? (fun n => n.id == nodeId) = none →
      ∃ msg, updateNodeRun g nodeId u peer = .error msg) ∧
    (g.edges.find? (edgeMatches inp.source inp.target) = none →
      ∃ msg, updateEdgeRun g inp now peer = .error msg) ∧
    (g.edges.find? (edgeMatches source target) = none →
      ∃ msg, deleteEdgeRun g source target now peer = .error msg) := by
  refine ⟨?_, ?_, ?_⟩
  · intro h; exact ⟨"TypeError: node is null", by simp [updateNodeRun, h]⟩
  · intro h; exact ⟨"TypeError: edge is undefined", by simp [updateEdgeRun, h]⟩
  · intro h; exact ⟨"TypeError: edge is undefined", by simp [deleteEdgeRun, h]⟩

/-- Concrete witness for C4: on the empty document, updating node `"zz"`,
updating edge `("x", "y")` and deleting edge `("x", "y")` all fail. -/
theorem notFound_fails_witness :
    ((GraphDoc.mk [] []).nodes.find? (fun n => n.id == "zz") = none) ∧
    ((GraphDoc.mk [] []).edges.find? (edgeMatches "x" "y") = none) ∧
    (∃ msg, updateNodeRun (GraphDoc.mk [] []) "zz"
      (NodeUpdate.mk none none none none none none none) (Except.ok ()) = .error msg) ∧
    (∃ msg, updateEdgeRun (GraphDoc.mk [] [])
      (EdgeInput.mk "x" "y" JsLabel.undef) 0 (Except.ok ()) = .error msg) ∧
    (∃ msg, deleteEdgeRun (GraphDoc.mk [] []) "x" "y" 0 (Except.ok ()) = .error msg) :=
  ⟨by decide, by decide,
    (notFound_fails (GraphDoc.mk [] []) "zz"
      (NodeUpdate.mk none none none none none none none)
      (EdgeInput.mk "x" "y" JsLabel.undef) "x" "y" 0 (Except.ok ())).1 (by decide),
    (notFound_fails (GraphDoc.mk [] []) "zz"
      (NodeUpdate.mk none none none none none none none)
      (EdgeInput.mk "x" "y" JsLabel.undef) "x" "y" 0 (Except.ok ())).2.1 (by decide),
    (notFound_fails (GraphDoc.mk [] []) "zz"
      (NodeUpdate.mk none none none none none none none)
      (EdgeInput.mk "x" "y" JsLabel.undef) "x" "y" 0 (Except.ok ())).2.2 (by decide)⟩

/-! ### C5 -/

/-- C5: for every mutation operation (`createNode`, `updateNode`,
`importNodes`, `deleteNodes`, `createEdge`, `updateEdge`, `deleteEdge`,
`clearGraph`), the outcome of the embedding/clustering peer call never
changes what the caller gets: the result with any peer outcome equals the
result with a successful peer call, and `clearGraph`'s document deletion
stands even when the reset call fails. -/
theorem peer_failure_never_escalated (g : GraphDoc) (inp : NodeInput)
    (nodeId newId : String) (u : NodeUpdate) (msgs : List MsgDoc)
    (importIds deleteIds : List String) (idSupply : Nat → String)
    (einp : EdgeInput) (source target : String) (now : Nat)
    (store : Option GraphDoc) (peer : Except String Unit) :
    createNodeRun g inp newId now peer = createNodeRun g inp newId now (.ok ()) ∧
    updateNodeRun g nodeId u peer = updateNodeRun g nodeId u (.ok ()) ∧
    importNodesRun msgs g importIds idSupply peer =
      importNodesRun msgs g importIds idSupply (.ok ()) ∧
    deleteNodesRun g deleteIds peer = deleteNodesRun g deleteIds (.ok ()) ∧
    createEdgeRun g einp newId now peer = createEdgeRun g einp newId now (.ok ()) ∧
    updateEdgeRun g einp now peer = updateEdgeRun g einp now (.ok ()) ∧
    deleteEdgeRun g source target now peer =
      deleteEdgeRun g source target now (.ok ()) ∧
    clearGraphRun store peer = clearGraphRun store (.ok ()) ∧
    (clearGraphRun store peer).1 = none := by
  refine ⟨?_, ?_, ?_, ?_, ?_, ?_, ?_, ?_, ?_⟩
  · cases peer <;> rfl
  · cases hf : g.nodes.find? (fun n => n.id == nodeId) <;> cases peer <;>
      simp [updateNodeRun, hf]
  · cases peer <;> rfl
  · cases peer <;> rfl
  · cases hf : g.edges.find? (edgeMatches einp.source einp.target) <;> cases peer <;>
      simp [createEdgeRun, hf]
  · cases hf : g.edges.find? (edgeMatches einp.source einp.target) <;> cases peer <;>
      simp [updateEdgeRun, hf]
  · cases hf : g.edges.find? (edgeMatches source target) <;> cases peer <;>
      simp [deleteEdgeRun, hf]
  · cases peer <;> rfl
  · cases peer <;> rfl

/-! ### C6 -/

/-- C6: for every strategy registry, method name and document state — in
particular for strategy outputs containing stale or foreign ids — every id
returned by `getRecommendations` is the id of a node of the user's current
document. -/
theorem recommendations_only_existing_ids
    (registry : List (String × Except String (List String)))
    (method : String) (g : GraphDoc) :
    ∀ id ∈ getRecommendationsRun registry method g,
      id ∈ g.nodes.map (fun n => n.id) := by
  intro id hid
  unfold getRecommendationsRun getRecommendationsBody at hid
  cases hl : lookupStrategy registry method with
  | none => rw [hl] at hid; simp at hid
  | some strat =>
    rw [hl] at hid
    cases strat with
    | error msg => simp at hid
    | ok recs =>
      simp only [List.mem_filter] at hid
      exact of_decide_eq_true hid.2

/-- Concrete witness for C6: the `old_ones` strategy returns the stale id
`"stale"` alongside `"a"`; the dispatcher keeps only `"a"`, which exists. -/
theorem recommendations_only_existing_ids_witness :
    ("a" ∈ getRecommendationsRun [("old_ones", Except.ok ["a", "stale"])]
        "old_ones" (GraphDoc.mk [nodeA] [])) ∧
    ("a" ∈ (GraphDoc.mk [nodeA] []).nodes.map (fun n => n.id)) ∧
    getRecommendationsRun [("old_ones", Except.ok ["a", "stale"])]
        "old_ones" (GraphDoc.mk [nodeA] []) = ["a"] :=
  ⟨by decide,
    recommendations_only_existing_ids [("old_ones", Except.ok ["a", "stale"])]
      "old_ones" (GraphDoc.mk [nodeA] []) "a" (by decide),
    by decide⟩

/-! ### C7 -/

/-- C7: `getRecommendations` never propagates an internal error to its
caller: whenever the body throws — a strategy transport error included — the
call returns the empty sequence; and for an unknown method the body throws
precisely the "Invalid method" condition listing the valid method names,
which the catch turns into an empty-sequence return rather than a thrown
error. -/
theorem recommendations_degrade_silently
    (registry : List (String × Except String (List String)))
    (method : String) (g : GraphDoc) :
    (∀ msg, getRecommendationsBody registry method g = .error msg →
      getRecommendationsRun registry method g = []) ∧
    (lookupStrategy registry method = none →
      getRecommendationsBody registry method g =
        .error (invalidMethodMsg method (registry.map Prod.fst)) ∧
      getRecommendationsRun registry method g = []) := by
  constructor
  · intro msg h
    unfold getRecommendationsRun
    rw [h]
  · intro h
    have hb : getRecommendationsBody registry method g =
        .error (invalidMethodMsg method (registry.map Prod.fst)) := by
      unfold getRecommendationsBody
      rw [h]
    refine ⟨hb, ?_⟩
    unfold getRecommendationsRun
    rw [hb]

/-- Concrete witness for C7: with a registry holding only `"synonyms"`, the
unknown method `"bogus"` produces the "Invalid method" condition listing
`synonyms`, and the caller receives the empty sequence. -/
theorem recommendations_degrade_silently_witness :
    (lookupStrategy [("synonyms", Except.ok [])] "bogus" = none) ∧
    (getRecommendationsBody [("synonyms", Except.ok [])] "bogus"
        (GraphDoc.mk [] []) =
      .error (invalidMethodMsg "bogus" ["synonyms"]) ∧
    getRecommendationsRun [("synonyms", Except.ok [])] "bogus"
        (GraphDoc.mk [] []) = []) :=
  ⟨by rfl,
    (recommendations_degrade_silently [("synonyms", Except.ok [])] "bogus"
      (GraphDoc.mk [] [])).2 (by rfl)⟩

/-! ### C8 -/

/-- C8: with a (truthy) `conversationId`, `getGraph` returns exactly the
nodes whose `source_conversation_id` matches it, and exactly the edges whose
source and target ids both occur among the returned (filtered) nodes — an
edge with one filtered-out endpoint is excluded even if the other endpoint
matches; with `conversationId` omitted the full graph is returned. -/
theorem getGraph_conversation_filter (g : GraphDoc) (c : String) (hc : c ≠ "") :
    (∀ n, n ∈ (getGraphRun g (some c)).1 ↔
      n ∈ g.nodes ∧ n.source_conversation_id = some c) ∧
    (∀ e, e ∈ (getGraphRun g (some c)).2 ↔
      e ∈ g.edges ∧
      e.source ∈ (getGraphRun g (some c)).1.map (fun n => n.id) ∧
      e.target ∈ (getGraphRun g (some c)).1.map (fun n => n.id)) ∧
    getGraphRun g none = (g.nodes, g.edges) := by
  have h1 : (getGraphRun g (some c)).1 =
      g.nodes.filter (fun n => n.source_conversation_id == some c) := by
    simp [getGraphRun, hc]
  have h2 : (getGraphRun g (some c)).2 =
      g.edges.filter (fun e =>
        decide (e.source ∈ (g.nodes.filter
          (fun n => n.source_conversation_id == some c)).map (fun n => n.id)) &&
        decide (e.target ∈ (g.nodes.filter
          (fun n => n.source_conversation_id == some c)).map (fun n => n.id))) := by
    simp [getGraphRun, hc]
  refine ⟨?_, ?_, rfl⟩
  · intro n
    rw [h1]
    simp [List.mem_filter]
  · intro e
    rw [h2, h1]
    simp [List.mem_filter]

/-- Concrete witness for C8: nodes `a` (conv1) and `b` (conv2) with the edge
`a → b`; filtering by `conv1` keeps exactly node `a` and excludes the edge,
although its source endpoint survives the filter. -/
theorem getGraph_conversation_filter_witness :
    ("conv1" ≠ "") ∧
    (∀ n, n ∈ (getGraphRun (GraphDoc.mk [nodeA, nodeB] [edgeAB]) (some "conv1")).1 ↔
      n ∈ [nodeA, nodeB] ∧ n.source_conversation_id = some "conv1") ∧
    (getGraphRun (GraphDoc.mk [nodeA, nodeB] [edgeAB]) (some "conv1")).1 = [nodeA] ∧
    (getGraphRun (GraphDoc.mk [nodeA, nodeB] [edgeAB]) (some "conv1")).2 = [] :=
  ⟨by decide,
    (getGraph_conversation_filter (GraphDoc.mk [nodeA, nodeB] [edgeAB]) "conv1"
      (by decide)).1,
    by decide, by decide⟩

/-! ### C10 -/

/-- C10 counterexample: it is false that every call issued to the
embedding/clustering peer carries a 15-second client-side timeout — the
`calculate-umap` request of `calculateCluster` is configured with no timeout
at all. -/
theorem peer_timeout_not_universal :
    ¬ (∀ c ∈ allPeerCalls, c.timeout = some 15000) := by decide

/-- C10 (amended): every embed-service call (embed node from create, update
and import, embed edge from edge create and update, embed delete from node
and edge deletion, and embed reset) carries a fixed 15-second client-side
timeout, while the `calculate-umap` layout request carries no client-side
timeout. -/
theorem embed_calls_timeout_15s :
    (allEmbedCalls.all (fun c => c.timeout == some 15000) = true) ∧
    calculateClusterUmapCall.timeout = none := by decide

/-! ### C9 -/

theorem updateFirst_map_eq {α β : Type} (p : α → Bool) (f : α → α) (pr : α → β)
    (l : List α) (h : ∀ a, pr (f a) = pr a) :
    (updateFirst p f l).map pr = l.map pr := by
  induction l with
  | nil => rfl
  | cons x xs ih => by_cases hx : p x = true <;> simp [updateFirst, hx, h x, ih]

theorem updateFirst_getElem (key : String) (f : Node → Node) :
    ∀ ns : List Node, (ns.map (fun n => n.id)).Nodup →
      ∀ i : Nat, (updateFirst (fun n => n.id == key) f ns)[i]? =
        ns[i]?.map (fun n => if n.id = key then f n else n) := by
  intro ns
  induction ns with
  | nil => intro _ i; simp [updateFirst]
  | cons x xs ih =>
    intro hnd i
    have hnd' : (xs.map (fun n => n.id)).Nodup :=
      (List.nodup_cons.mp (by simpa using hnd)).2
    have hxmem : x.id ∉ xs.map (fun n => n.id) :=
      (List.nodup_cons.mp (by simpa using hnd)).1
    by_cases hx : x.id = key
    · have hbx : (x.id == key) = true := by simp [hx]
      cases i with
      | zero => simp [updateFirst, hbx, hx]
      | succ j =>
        simp only [updateFirst, hbx, if_true, List.getElem?_cons_succ]
        cases hj : xs[j]? with
        | none => simp [hj]
        | some n =>
          have hn : n ∈ xs := by
            exact List.mem_iff_getElem?.mpr ⟨j, hj⟩
          have hne : ¬ n.id = key := by
            intro hk
            apply hxmem
            have : n.id ∈ xs.map (fun n => n.id) := List.mem_map_of_mem _ hn
            rw [hk, ← hx] at this
            exact this
          simp [hj, hne]
    · have hbx : (x.id == key) = false := by simp [hx]
      cases i with
      | zero => simp [updateFirst, hbx, hx]
      | succ j =>
        simp only [updateFirst, hbx, Bool.false_eq_true, if_false,
          List.getElem?_cons_succ]
        exact ih hnd' j

theorem foldl_applyUmap_length (data : List UmapItem) :
    ∀ ns : List Node, (data.foldl applyUmapItem ns).length = ns.length := by
  induction data with
  | nil => intro ns; rfl
  | cons it rest ih =>
    intro ns
    show (rest.foldl applyUmapItem (applyUmapItem ns it)).length = _
    rw [ih]
    exact updateFirst_length _ _ _

theorem foldl_applyUmap_map_id (data : List UmapItem) :
    ∀ ns : List Node,
      (data.foldl applyUmapItem ns).map (fun n => n.id) =
        ns.map (fun n => n.id) := by
  induction data with
  | nil => intro ns; rfl
  | cons it rest ih =>
    intro ns
    show (rest.foldl applyUmapItem (applyUmapItem ns it)).map _ = _
    rw [ih]
    exact updateFirst_map_eq _ _ _ _ (fun a => rfl)

theorem foldl_applyUmap_getElem (data : List UmapItem) :
    ∀ ns : List Node, (ns.map (fun n => n.id)).Nodup →
      (data.map (fun it => it.id)).Nodup →
      ∀ i : Nat, (data.foldl applyUmapItem ns)[i]? =
        ns[i]?.map (fun n =>
          match data.find? (fun it => it.id == n.id) with
          | some it => { n with x := it.x * 250, y := it.y * 250 }
          | none => n) := by
  induction data with
  | nil =>
    intro ns _ _ i
    cases h : ns[i]? <;> simp [h, List.find?]
  | cons it rest ih =>
    intro ns hns hdata i
    have hrest : (rest.map (fun x => x.id)).Nodup :=
      (List.nodup_cons.mp (by simpa using hdata)).2
    have hitmem : it.id ∉ rest.map (fun x => x.id) :=
      (List.nodup_cons.mp (by simpa using hdata)).1
    have hmap1 : (applyUmapItem ns it).map (fun n => n.id) = ns.map (fun n => n.id) :=
      updateFirst_map_eq _ _ _ _ (fun a => rfl)
    have hns1 : ((applyUmapItem ns it).map (fun n => n.id)).Nodup := by
      rw [hmap1]; exact hns
    have happ : (applyUmapItem ns it)[i]? =
        ns[i]?.map (fun n => if n.id = it.id then
          { n with x := it.x * 250, y := it.y * 250 } else n) :=
      updateFirst_getElem it.id _ ns hns i
    show (rest.foldl applyUmapItem (applyUmapItem ns it))[i]? = _
    rw [ih (applyUmapItem ns it) hns1 hrest i, happ]
    cases hni : ns[i]? with
    | none => rfl
    | some n =>
      simp only [Option.map_some']
      by_cases h : n.id = it.id
      · rw [if_pos h]
        have hsc :
            ({ n with x := it.x * 250, y := it.y * 250 } : Node).id = n.id := rfl
        simp only [hsc]
        have hfr : rest.find? (fun x => x.id == n.id) = none := by
          rw [List.find?_eq_none]
          intro x hx
          simp only [beq_iff_eq]
          intro hxe
          apply hitmem
          rw [← h, ← hxe]
          exact List.mem_map_of_mem _ hx
        have hhead : (it.id == n.id) = true := by simp [h]
        have hcons : List.find? (fun x => x.id == n.id) (it :: rest) = some it :=
          List.find?_cons_of_pos _ hhead
        rw [hcons, hfr]
      · rw [if_neg h]
        have hhead : ¬ (it.id == n.id) = true := by
          simp only [beq_iff_eq]
          intro he; exact h he.symm
        have hcons : List.find? (fun x => x.id == n.id) (it :: rest) =
            List.find? (fun x => x.id == n.id) rest :=
          List.find?_cons_of_neg _ hhead
        rw [hcons]

/-- C9: after a successful peer layout response, `calculateCluster` (under the
document invariant of unique node ids and a per-node peer response) overwrites
`x`/`y` of each node whose id occurs in the response with the returned
coordinates multiplied by 250, leaves every node whose id is not mentioned
(and every edge) untouched, skips response ids absent from the document
without disturbing the remaining updates, and returns the raw (unscaled) peer
response. -/
theorem calculateCluster_applies_scaled (g : GraphDoc) (umapData : List UmapItem)
    (hnodes : (g.nodes.map (fun n => n.id)).Nodup)
    (hdata : (umapData.map (fun it => it.id)).Nodup) :
    (calculateClusterRun g umapData).2 = umapData ∧
    (calculateClusterRun g umapData).1.edges = g.edges ∧
    (calculateClusterRun g umapData).1.nodes.length = g.nodes.length ∧
    (∀ i : Nat, ((calculateClusterRun g umapData).1.nodes)[i]? =
      (g.nodes)[i]?.map (fun n =>
        match umapData.find? (fun it => it.id == n.id) with
        | some it => { n with x := it.x * 250, y := it.y * 250 }
        | none => n)) ∧
    (∀ n ∈ g.nodes, ∀ it ∈ umapData, it.id = n.id →
      ({ n with x := it.x * 250, y := it.y * 250 } : Node) ∈
        (calculateClusterRun g umapData).1.nodes) ∧
    (∀ n ∈ g.nodes, (∀ it ∈ umapData, it.id ≠ n.id) →
      n ∈ (calculateClusterRun g umapData).1.nodes) := by
  have hnodes' : (calculateClusterRun g umapData).1.nodes =
      umapData.foldl applyUmapItem g.nodes := rfl
  have hget := foldl_applyUmap_getElem umapData g.nodes hnodes hdata
  refine ⟨rfl, rfl, ?_, ?_, ?_, ?_⟩
  · rw [hnodes']; exact foldl_applyUmap_length _ _
  · intro i; rw [hnodes']; exact hget i
  · intro n hn it hit hid
    obtain ⟨i, hi⟩ := List.mem_iff_getElem?.mp hn
    have hsome : (umapData.find? (fun x => x.id == n.id)).isSome :=
      List.find?_isSome.mpr ⟨it, hit, by simp [hid]⟩
    obtain ⟨it', hit'⟩ := Option.isSome_iff_exists.mp hsome
    have hmem' : it' ∈ umapData := List.mem_of_find?_eq_some hit'
    have hip := List.find?_some hit'
    simp only [beq_iff_eq] at hip
    have heq : it' = it := by
      apply List.inj_on_of_nodup_map hdata hmem' hit
      rw [hip]
      exact hid.symm
    rw [List.mem_iff_getElem?]
    refine ⟨i, ?_⟩
    rw [hnodes', hget i, hi]
    simp only [Option.map_some']
    rw [hit', heq]
  · intro n hn hno
    obtain ⟨i, hi⟩ := List.mem_iff_getElem?.mp hn
    have hfr : umapData.find? (fun x => x.id == n.id) = none := by
      rw [List.find?_eq_none]
      intro x hx
      simp only [beq_iff_eq]
      exact hno x hx
    rw [List.mem_iff_getElem?]
    refine ⟨i, ?_⟩
    rw [hnodes', hget i, hi]
    simp only [Option.map_some']
    rw [hfr]

/-- Concrete witness for C9 (the spec's example scenario): the peer returns
an unknown id `"zz"` followed by `(0.4, -0.2)` for node `b`; node `b`'s
stored coordinates become `(100, -50)`, node `a` is untouched, and the raw
response is returned unscaled. -/
theorem calculateCluster_applies_scaled_witness :
    ((([nodeA, nodeB] : List Node).map (fun n => n.id)).Nodup) ∧
    ((([UmapItem.mk "zz" 1 1, UmapItem.mk "b" (2/5) (-(1/5))] :
        List UmapItem).map (fun it => it.id)).Nodup) ∧
    ((calculateClusterRun (GraphDoc.mk [nodeA, nodeB] [edgeAB])
        [UmapItem.mk "zz" 1 1, UmapItem.mk "b" (2/5) (-(1/5))]).2 =
      [UmapItem.mk "zz" 1 1, UmapItem.mk "b" (2/5) (-(1/5))]) ∧
    (calculateClusterRun (GraphDoc.mk [nodeA, nodeB] [edgeAB])
        [UmapItem.mk "zz" 1 1, UmapItem.mk "b" (2/5) (-(1/5))]).1.nodes =
      [nodeA, { nodeB with x := 100, y := -50 }] :=
  ⟨by decide, by decide,
    (calculateCluster_applies_scaled (GraphDoc.mk [nodeA, nodeB] [edgeAB])
      [UmapItem.mk "zz" 1 1, UmapItem.mk "b" (2/5) (-(1/5))]
      (by decide) (by decide)).1,
    by
      simp [calculateClusterRun, applyUmapItem, updateFirst, nodeA, nodeB]
      norm_num⟩

end KGraph
